import Mathlib

/-!
Verification of the MessagePack codec in
`src/main/deploy/nodeselector/msgpack.js` (functions `serialize`,
`deserialize`, `encodeUtf8`, `decodeUtf8`).

Shallow embedding conventions:
* JavaScript byte values are `Nat` (a `Uint8Array` store applies `% 256`,
  written explicitly where the source relies on `ToUint8`).
* Numbers that the source classifies as integers (`isFinite(data) &&
  Math.floor(data) === data`) are embedded as `Int`; all arithmetic the
  integer paths perform on them (`/`, `%`, `>>>` against `pow32`) is exact
  at these magnitudes, and the `ToUint32`/`ToInt32` truncations of the
  source are written as explicit Euclidean div/mod.  A numeric literal is
  modelled as the double JavaScript parses it to: `0xffffffffffffffff`
  rounds to `2^64` and `0x7fffffffffffffff` to `2^63`, while every other
  literal in the file is exactly representable.
* A float value is embedded as the eight big-endian bytes that
  `DataView.setFloat64` produces for it; `serialize` appends exactly those
  bytes after tag 0xcb, and `getFloat64` is its bit-exact inverse, so the
  byte image is the faithful wire-level representation.
* JavaScript strings are lists of UTF-16 code units (`charCodeAt` values).
* The `typeHint` option is fixed at its default (absent): every claim
  below concerns the default numeric classification.
* Fallible paths return `Except Err`; reading past the end of the input
  (undefined behaviour in the source, spec §4.3/§9) is modelled as a
  distinct `truncated` error, and recursion through the untyped data is
  fuel-based (the source can recurse unboundedly through a malicious
  `invalidTypeReplacement` function).
-/

inductive Err where
  | invalidArgument
  | unsupportedType
  | encodingError
  | decodingError
  | invalidByteCode
  | invalidByteValue
  | invalidExtLength
  | truncated
  | outOfFuel
  deriving DecidableEq, Repr

/-- The dynamic value model: one constructor per runtime kind the source's
`append` dispatch distinguishes.  `vOther` stands for a value of an
unsupported `typeof` (function / symbol); `vUndef` is JavaScript
`undefined` (the "absent" marker); `vDate` is a `Date` carrying its
millisecond time value; `vFloat` carries the 8-byte big-endian IEEE754
image of a number classified as a float. -/
inductive JsVal where
  | vUndef
  | vNull
  | vBool (b : Bool)
  | vInt (n : Int)
  | vFloat (bits : List Nat)
  | vStr (units : List Nat)
  | vBin (bytes : List Nat)
  | vArr (elems : List JsVal)
  | vMap (entries : List (List Nat × JsVal))
  | vDate (ms : Int)
  | vOther

/-- Code units of a Lean string literal, used to write JavaScript string
keys such as "type" in the model. -/
def su (s : String) : List Nat := s.toList.map Char.toNat

def isUndef : JsVal → Bool
  | .vUndef => true
  | _ => false

/-- `k` big-endian bytes of `n % 2^(8k)`: what the source's
`[.., x >>> 8, x]` byte spreads store after `ToUint8`. -/
def toBE : Nat → Nat → List Nat
  | 0, _ => []
  | k + 1, n => toBE k (n / 256) ++ [n % 256]

/-- Big-endian accumulation `value = value * 256 + byte`, the loop body of
the source's `readUInt`. -/
def beNat (bs : List Nat) : Nat := bs.foldl (fun v b => v * 256 + b) 0

/-- Signed big-endian accumulation: the source's `readInt` treats the top
bit of the first byte as `-2^7` (`value += byte & 0x7f; if (byte & 0x80)
value -= 0x80`) and the remaining bytes as unsigned. -/
def intBE : List Nat → Int
  | [] => 0
  | b :: rest =>
    rest.foldl (fun (v : Int) (c : Nat) => v * 256 + (c : Int))
      (((b &&& 0x7f : Nat) : Int) - (if 0x80 ≤ b then (0x80 : Int) else 0))

/-- Consume exactly `k` bytes.  The source reads past the end of its input
without a bounds check (flagged as undefined behaviour by the spec); the
model reports `truncated` instead. -/
def takeBytes (k : Nat) (bs : List Nat) : Except Err (List Nat × List Nat) :=
  if k ≤ bs.length then .ok (bs.take k, bs.drop k) else .error .truncated

-- Sanity checks for the Int division/modulus semantics the model relies on
-- (Euclidean: `%` is non-negative for a positive modulus, matching the
-- explicit floored/truncated conversions noted at each use site).
example : (-2500 : Int) % 1000 = 500 := by decide
example : (-2500 : Int) / 1000 = -3 := by decide
example : toBE 4 4294967296 = [0, 0, 0, 0] := by decide
example : toBE 2 65534 = [255, 254] := by decide
example : intBE [0x80, 0, 0, 0, 0, 0, 0, 0] = -9223372036854775808 := by decide
example : beNat [1, 0] = 256 := by decide

/-! ## Text codec (`encodeUtf8` / `decodeUtf8`) -/

/-- Embedding of the source's `encodeUtf8` over the string's UTF-16 code
units.  The ASCII fast path of the source only changes buffer allocation,
never the emitted bytes, so it is not reflected here.  A high surrogate
(0xD800-0xDBFF) must be followed by a low surrogate (0xDC00-0xDFFF), else
the source throws; any other unit, including an unpaired low surrogate, is
written through the plain 1,2,3-byte branches. -/
def encodeUtf8 : List Nat → Except Err (List Nat)
  | [] => .ok []
  | c :: rest =>
    if c < 128 then
      (fun bs => c :: bs) <$> encodeUtf8 rest
    else if c < 2048 then
      (fun bs => ((c >>> 6) ||| 192) :: ((c &&& 63) ||| 128) :: bs) <$> encodeUtf8 rest
    else if 0xd7ff < c ∧ c < 0xdc00 then
      match rest with
      | [] => .error .encodingError
      | c2 :: rest2 =>
        if c2 < 0xdc00 ∨ 0xdfff < c2 then .error .encodingError
        else
          let cp := 0x10000 + ((c &&& 0x03ff) <<< 10) + (c2 &&& 0x03ff)
          (fun bs => ((cp >>> 18) ||| 240) :: (((cp >>> 12) &&& 63) ||| 128) ::
            (((cp >>> 6) &&& 63) ||| 128) :: ((cp &&& 63) ||| 128) :: bs) <$> encodeUtf8 rest2
    else
      (fun bs => ((c >>> 12) ||| 224) :: (((c >>> 6) &&& 63) ||| 128) ::
        ((c &&& 63) ||| 128) :: bs) <$> encodeUtf8 rest

/-- Embedding of the source's `decodeUtf8`: continuation bytes are masked
with `& 63` without validation, exactly as in the source; incomplete
multi-byte sequences and unknown lead bytes throw. -/
def decodeUtf8 : List Nat → Except Err (List Nat)
  | [] => .ok []
  | c :: rest =>
    if c ≤ 127 then
      (fun us => c :: us) <$> decodeUtf8 rest
    else if 191 < c ∧ c < 224 then
      match rest with
      | [] => .error .decodingError
      | b1 :: r =>
        (fun us => (((c &&& 31) <<< 6) ||| (b1 &&& 63)) :: us) <$> decodeUtf8 r
    else if 223 < c ∧ c < 240 then
      match rest with
      | b1 :: b2 :: r =>
        (fun us => (((c &&& 15) <<< 12) ||| ((b1 &&& 63) <<< 6) ||| (b2 &&& 63)) :: us) <$>
          decodeUtf8 r
      | _ => .error .decodingError
    else if 239 < c ∧ c < 248 then
      match rest with
      | b1 :: b2 :: b3 :: r =>
        let cp := ((c &&& 7) <<< 18) ||| ((b1 &&& 63) <<< 12) ||| ((b2 &&& 63) <<< 6) ||| (b3 &&& 63)
        if cp ≤ 0xffff then (fun us => cp :: us) <$> decodeUtf8 r
        else if cp ≤ 0x10ffff then
          (fun us => (((cp - 0x10000) >>> 10) ||| 0xd800) ::
            (((cp - 0x10000) &&& 0x3ff) ||| 0xdc00) :: us) <$> decodeUtf8 r
        else .error .decodingError
      | _ => .error .decodingError
    else .error .decodingError

/-! ## Encoder -/

/-- Embedding of the integer branch of the source's `appendNumber` (the
default classification: a finite number with `Math.floor(data) === data`).
The branch order and bounds are the source's, including the tag byte 0xd3
that line 113 emits in the branch whose comment reads "uint64".  The
source's comparisons are double comparisons, so the bound written
`0xffffffffffffffff` is really `2^64 = 18446744073709551616` (the literal
rounds up) and `0x7fffffffffffffff` is really `2^63`; in particular the
input `2^64` still takes the 0xd3 branch and is emitted as eight zero
bytes, not clamped. -/
def appendNumber (data : Int) : List Nat :=
  if 0 ≤ data ∧ data ≤ 0x7f then [data.toNat]
  else if data < 0 ∧ -0x20 ≤ data then [(data % 256).toNat]
  else if 0 < data ∧ data ≤ 0xff then [0xcc, data.toNat]
  else if -0x80 ≤ data ∧ data ≤ 0x7f then [0xd0, (data % 256).toNat]
  else if 0 < data ∧ data ≤ 0xffff then 0xcd :: toBE 2 data.toNat
  else if -0x8000 ≤ data ∧ data ≤ 0x7fff then 0xd1 :: toBE 2 (data % 65536).toNat
  else if 0 < data ∧ data ≤ 0xffffffff then 0xce :: toBE 4 data.toNat
  else if -0x80000000 ≤ data ∧ data ≤ 0x7fffffff then 0xd2 :: toBE 4 (data % 4294967296).toNat
  else if 0 < data ∧ data ≤ 18446744073709551616 then 0xd3 :: toBE 8 (data % 18446744073709551616).toNat
  else if -0x8000000000000000 ≤ data ∧ data ≤ 9223372036854775808 then
    0xd3 :: toBE 8 (data % 18446744073709551616).toNat
  else if data < 0 then [0xd3, 0x80, 0, 0, 0, 0, 0, 0, 0]
  else [0xcf, 0xff, 0xff, 0xff, 0xff, 0xff, 0xff, 0xff, 0xff]

def strHeader (len : Nat) : List Nat :=
  if len ≤ 0x1f then [0xa0 + len]
  else if len ≤ 0xff then [0xd9, len]
  else if len ≤ 0xffff then 0xda :: toBE 2 len
  else 0xdb :: toBE 4 len

def arrHeader (len : Nat) : List Nat :=
  if len ≤ 0xf then [0x90 + len]
  else if len ≤ 0xffff then 0xdc :: toBE 2 len
  else 0xdd :: toBE 4 len

/-- Note the source's `appendBinArray` uses the fixarray-sized bound 0xf
(not 0xff) to pick bin8. -/
def binHeader (len : Nat) : List Nat :=
  if len ≤ 0xf then [0xc4, len]
  else if len ≤ 0xffff then 0xc5 :: toBE 2 len
  else 0xc6 :: toBE 4 len

def mapHeader (count : Nat) : List Nat :=
  if count ≤ 0xf then [0x80 + count]
  else if count ≤ 0xffff then 0xde :: toBE 2 count
  else 0xdf :: toBE 4 count

/-- The signed 64-bit value that the source's `appendInt64` emits when
called from `appendDate` with `sec = ms / 1000` (a rational, exact in the
double range of a `Date`).  Derived from the source:
for `value >= 0` the `ToUint32` truncations of `hi`/`lo` encode
`floor(sec)`; for `value < 0` the source runs `value++`, splits
`Math.abs(value)` (truncating each 32-bit half) and bitwise-NOTs the
halves, which encodes `-(trunc(|sec + 1|) + 1)` — that is `-(|ms + 1000|
/ 1000 + 1)` with floored division, and NOT `floor(sec)` when the
fractional part is non-zero and `sec ≤ -1`. -/
def dateSec64 (ms : Int) : Int :=
  if 0 ≤ ms then ms / 1000
  else -(((ms + 1000).natAbs / 1000 : Nat) : Int) - 1

/-- Embedding of `appendDate`.  `getMilliseconds()` is the floored
`ms mod 1000` (time-zone offsets are whole seconds, so the local-time
conversion never changes the millisecond component), and `sec` is the
exact rational `ms / 1000`, with the source's `ToUint32`/`ToInt32`
truncations written out. -/
def appendDate (ms : Int) : List Nat :=
  let msec : Nat := (ms % 1000).toNat
  if msec = 0 ∧ 0 ≤ ms ∧ ms < 1000 * 4294967296 then
    0xd6 :: 0xff :: toBE 4 (ms / 1000).toNat
  else if 0 ≤ ms ∧ ms < 1000 * 17179869184 then
    let sec : Nat := (ms / 1000).toNat
    let ns : Nat := msec * 1000000
    0xd7 :: 0xff :: (ns >>> 22) % 256 :: (ns >>> 14) % 256 :: (ns >>> 6) % 256 ::
      ((((ns <<< 2) % 4294967296) ||| (sec / 4294967296)) % 256) :: toBE 4 sec
  else
    0xc7 :: 12 :: 0xff :: toBE 4 (msec * 1000000) ++
      toBE 8 ((dateSec64 ms) % 18446744073709551616).toNat

example : appendNumber 4294967296 = [0xd3, 0, 0, 0, 1, 0, 0, 0, 0] := by decide
example : appendNumber (-33) = [0xd0, 0xdf] := by decide
example : appendNumber 127 = [127] := by decide
example : appendNumber (-1) = [0xff] := by decide
example : encodeUtf8 [0xdc00] = .ok [0xed, 0xb0, 0x80] := rfl
example : encodeUtf8 [0xd83d, 0xde00] = .ok [0xf0, 0x9f, 0x98, 0x80] := rfl
example : decodeUtf8 [0xf0, 0x9f, 0x98, 0x80] = .ok [0xd83d, 0xde00] := rfl
example : appendDate (-2500) = [0xc7, 12, 0xff, 0x1d, 0xcd, 0x65, 0x00,
  0xff, 0xff, 0xff, 0xff, 0xff, 0xff, 0xff, 0xfe] := by decide

/-! ## Encoder dispatch (`serialize` / `append`) -/

/-- The `invalidTypeReplacement` option: either a direct value or a
single-argument function, as in the source's
`typeof options.invalidTypeReplacement === "function"` test. -/
inductive Repl where
  | val (v : JsVal)
  | fn (f : JsVal → JsVal)

structure Options where
  multiple : Bool := false
  invalidTypeReplacement : Option Repl := none

/-- JavaScript truthiness of a modelled value, for the source's
`options && options.invalidTypeReplacement` guard.  A float is falsy
exactly when its bytes are +0, -0 or a NaN image; objects (arrays, maps,
dates, binary views) and function/symbol values are truthy. -/
def jsTruthy : JsVal → Bool
  | .vUndef => false
  | .vNull => false
  | .vBool b => b
  | .vInt n => n ≠ 0
  | .vFloat bits =>
    ¬(bits = [0, 0, 0, 0, 0, 0, 0, 0] ∨ bits = [0x80, 0, 0, 0, 0, 0, 0, 0] ∨
      ((bits.getD 0 0 &&& 0x7f) = 0x7f ∧ 0xf0 ≤ (bits.getD 1 0 &&& 0xf0) ∧
        ¬((bits.getD 1 0 &&& 0x0f) = 0 ∧ bits.drop 2 = [0, 0, 0, 0, 0, 0])))
  | .vStr units => ¬units.isEmpty
  | _ => true

/-- The guard `options && options.invalidTypeReplacement` of the source:
the option must be present AND truthy (a function is always truthy). -/
def replTruthy (opts : Options) : Bool :=
  match opts.invalidTypeReplacement with
  | none => false
  | some (.fn _) => true
  | some (.val v) => jsTruthy v

/-- Encode each element of a list in order with `enc`, concatenating the
byte output: the loop of the source's `appendArray`. -/
def appendManyF (enc : JsVal → Except Err (List Nat)) : List JsVal → Except Err (List Nat)
  | [] => .ok []
  | v :: rest => do
    let b ← enc v
    let bs ← appendManyF enc rest
    .ok (b ++ bs)

/-- The entry loop of the source's `appendObject`: an entry whose value is
`undefined` is skipped entirely, otherwise the key is encoded as a string
followed by the value. -/
def appendEntriesF (enc : JsVal → Except Err (List Nat)) :
    List (List Nat × JsVal) → Except Err (List Nat)
  | [] => .ok []
  | (k, v) :: rest =>
    if isUndef v then appendEntriesF enc rest
    else do
      let kb ← enc (.vStr k)
      let vb ← enc v
      let tl ← appendEntriesF enc rest
      .ok (kb ++ vb ++ tl)

/-- UTF-8 encode the string and emit the length-tagged payload
(`appendString`). -/
def appendString (units : List Nat) : Except Err (List Nat) := do
  let bytes ← encodeUtf8 units
  .ok (strHeader bytes.length ++ bytes)

/-- Embedding of the source's `append` dispatch.  `fuel` bounds the
recursion depth: the source recurses through array elements and map
values (resetting the `isReplacement` flag, so a replacement function can
make it recurse unboundedly); one unit of fuel is consumed per nesting
level.  `typeof undefined` hits the `appendNull` case, exactly as in the
source. -/
def appendF : Nat → JsVal → Bool → Options → Except Err (List Nat)
  | 0, _, _, _ => .error .outOfFuel
  | fuel + 1, v, isRepl, opts =>
    match v with
    | .vUndef => .ok [0xc0]
    | .vNull => .ok [0xc0]
    | .vBool b => .ok [if b then 0xc3 else 0xc2]
    | .vInt n => .ok (appendNumber n)
    | .vFloat bits => .ok (0xcb :: bits)
    | .vStr units => appendString units
    | .vBin bytes => .ok (binHeader bytes.length ++ bytes)
    | .vArr elems => do
      let body ← appendManyF (fun u => appendF fuel u false opts) elems
      .ok (arrHeader elems.length ++ body)
    | .vMap entries => do
      let body ← appendEntriesF (fun u => appendF fuel u false opts) entries
      .ok (mapHeader (entries.countP fun e => !isUndef e.2) ++ body)
    | .vDate ms => .ok (appendDate ms)
    | .vOther =>
      if ¬isRepl ∧ replTruthy opts then
        match opts.invalidTypeReplacement with
        | some (.val r) => appendF fuel r true opts
        | some (.fn f) => appendF fuel (f .vOther) true opts
        | none => .error .unsupportedType
      else .error .unsupportedType

/-! Structural size of a value: an upper bound on the nesting depth, used
to pick enough fuel for `appendF` at the top level. -/

mutual

def jsSize : JsVal → Nat
  | .vUndef => 1
  | .vNull => 1
  | .vBool _ => 1
  | .vInt _ => 1
  | .vFloat _ => 1
  | .vStr _ => 1
  | .vBin _ => 1
  | .vDate _ => 1
  | .vOther => 1
  | .vArr es => 1 + jsSizeL es
  | .vMap en => 1 + jsSizeE en
termination_by v => sizeOf v

def jsSizeL : List JsVal → Nat
  | [] => 0
  | v :: r => jsSize v + jsSizeL r
termination_by l => sizeOf l

def jsSizeE : List (List Nat × JsVal) → Nat
  | [] => 0
  | (_k, v) :: r => jsSize v + jsSizeE r
termination_by l => sizeOf l
decreasing_by
  · simp only [List.cons.sizeOf_spec, Prod.mk.sizeOf_spec]; omega
  · simp only [List.cons.sizeOf_spec]; omega

end

/-- Top-level `serialize`.  `jsSize data + 1` units of fuel always cover
the structural recursion of a value without replacement dispatches; the
claims that involve a replacement quantify over `appendF` directly. -/
def serialize (data : JsVal) (opts : Options) : Except Err (List Nat) :=
  if opts.multiple then
    match data with
    | .vArr elems => appendManyF (fun u => appendF (jsSize data + 1) u false opts) elems
    | _ => .error .invalidArgument
  else appendF (jsSize data + 1) data false opts

theorem serialize_def (data : JsVal) (opts : Options) (h : opts.multiple = false) :
    serialize data opts = appendF (jsSize data + 1) data false opts := by
  simp [serialize, h]

example : serialize (.vInt 4294967296) {} = .ok [0xd3, 0, 0, 0, 1, 0, 0, 0, 0] := rfl
example : serialize .vNull {} = .ok [0xc0] := rfl
example : serialize (.vArr [.vInt 1, .vStr (su "ab")]) {} =
  .ok [0x92, 1, 0xa2, 97, 98] := by
  rw [serialize_def _ _ rfl]
  norm_num [jsSize, jsSizeL]
  rfl
example : serialize (.vMap [(su "a", .vUndef), (su "b", .vBool true)]) {} =
  .ok [0x81, 0xa1, 98, 0xc3] := by
  rw [serialize_def _ _ rfl]
  norm_num [jsSize, jsSizeE]
  rfl
example : serialize .vOther {invalidTypeReplacement := some (.val (.vBool false))} =
  .error .unsupportedType := rfl
example : serialize .vOther {invalidTypeReplacement := some (.val .vNull)} =
  .error .unsupportedType := rfl
example : serialize .vOther {invalidTypeReplacement := some (.val (.vBool true))} =
  .ok [0xc3] := by
  rw [serialize_def _ _ rfl]
  norm_num [jsSize]
  rfl

/-! ## Decoder (`deserialize`) -/

/-- JavaScript string conversion of a decoded value, applied by the
source's `readMap` when it stores `data[key] = read()` (object property
keys are strings).  Faithful for the primitive kinds (`null`, booleans,
integers, strings) and for arrays (`Array.prototype.toString` joins the
recursively converted elements with commas, rendering null/undefined as
empty) and typed arrays (joined decimal bytes); a plain object converts to
"[object Object]".  A `Date` key's conversion is locale/time-zone
dependent in JavaScript and a float's uses the full number-to-string
algorithm; both are represented by explicit placeholders here — no claim
depends on them.  The recursion is fuel-based for the same nested-value
reason as the encoder. -/
def jsToStringF : Nat → JsVal → List Nat
  | 0, _ => []
  | _ + 1, .vUndef => su "undefined"
  | _ + 1, .vNull => su "null"
  | _ + 1, .vBool true => su "true"
  | _ + 1, .vBool false => su "false"
  | _ + 1, .vInt n => su (toString n)
  | _ + 1, .vFloat bits => su "[float " ++ (bits.map fun b => su (toString b) ++ su " ").flatten ++ su "]"
  | _ + 1, .vStr units => units
  | _ + 1, .vBin bytes => (su ",").intercalate (bytes.map fun b => su (toString b))
  | fuel + 1, .vArr elems =>
    (su ",").intercalate (elems.map fun e =>
      match e with
      | .vNull => ([] : List Nat)
      | .vUndef => ([] : List Nat)
      | e => jsToStringF fuel e)
  | _ + 1, .vMap _ => su "[object Object]"
  | _ + 1, .vDate ms => su "[Date " ++ su (toString ms) ++ su "]"
  | _ + 1, .vOther => su "[other]"

/-- Property write `data[key] = value` on a JavaScript object: an existing
key is overwritten in place, a new key is appended. -/
def upsert : List (List Nat × JsVal) → List Nat → JsVal → List (List Nat × JsVal)
  | [], k, v => [(k, v)]
  | (k', v') :: rest, k, v =>
    if k' = k then (k', v) :: rest else (k', v') :: upsert rest k v

/-- JavaScript string conversion with just enough fuel for the value's own
nesting. -/
def jsToString (v : JsVal) : List Nat := jsToStringF (jsSize v) v

/-- Fold the flat `key, value, key, value, ...` sequence read by the
source's `readMap` loop into an object, converting each key to a string. -/
def buildMap (acc : List (List Nat × JsVal)) :
    List JsVal → List (List Nat × JsVal)
  | [] => acc
  | [_] => acc
  | k :: v :: rest => buildMap (upsert acc (jsToString k) v) rest

/-- Bit-exact widening of a big-endian float32 image to the float64 image:
what reserializing the number returned by the source's
`view.getFloat32` would store (NaN payloads are preserved verbatim;
JavaScript engines may canonicalize them, which no claim observes). -/
def f32to64 (c : List Nat) : List Nat :=
  let b0 := c.getD 0 0
  let b1 := c.getD 1 0
  let b2 := c.getD 2 0
  let b3 := c.getD 3 0
  let s := b0 >>> 7
  let e := ((b0 &&& 0x7f) <<< 1) ||| (b1 >>> 7)
  let m := ((b1 &&& 0x7f) <<< 16) ||| (b2 <<< 8) ||| b3
  let bits :=
    if e = 0xff then (s <<< 63) ||| (0x7ff <<< 52) ||| (m <<< 29)
    else if e = 0 then
      if m = 0 then s <<< 63
      else
        let k := Nat.log2 m
        (s <<< 63) ||| ((874 + k) <<< 52) ||| ((m - 2 ^ k) <<< (52 - k))
    else (s <<< 63) ||| ((e + 896) <<< 52) ||| (m <<< 29)
  toBE 8 bits

/-- `readUInt`: consume `k` bytes, big-endian unsigned. -/
def readUIntN (k : Nat) (bs : List Nat) : Except Err (Nat × List Nat) :=
  (takeBytes k bs).map fun p => (beNat p.1, p.2)

/-- `readInt`: consume `k` bytes, big-endian with the first byte signed. -/
def readIntN (k : Nat) (bs : List Nat) : Except Err (Int × List Nat) :=
  (takeBytes k bs).map fun p => (intBE p.1, p.2)

/-- `readStr`: consume `size` bytes and UTF-8 decode them. -/
def readStrN (size : Nat) (bs : List Nat) : Except Err (JsVal × List Nat) := do
  let (chunk, rest) ← takeBytes size bs
  let units ← decodeUtf8 chunk
  .ok (.vStr units, rest)

/-- `readBin`: consume `size` raw bytes. -/
def readBinN (size : Nat) (bs : List Nat) : Except Err (JsVal × List Nat) :=
  (takeBytes size bs).map fun p => (.vBin p.1, p.2)

/-- Rational truncation toward zero: what `new Date(t)` does to a
fractional time value (`TimeClip` / `ToIntegerOrInfinity`). -/
def jsTruncDiv (a : Int) (b : Int) : Int :=
  if 0 ≤ a then a / b else -((-a) / b)

/-- `readExtDate`: the three timestamp payload shapes.  The 12-byte case's
`pos -= 8; readInt(8)` re-reads bytes 4..11 of the payload, i.e. a signed
big-endian 64-bit value.  `new Date(sec * 1000 + ns / 1000000)` truncates
the combined rational toward zero. -/
def readExtDate (data : List Nat) : Except Err JsVal :=
  if data.length = 4 then .ok (.vDate ((beNat data : Int) * 1000))
  else if data.length = 8 then
    let d0 := data.getD 0 0
    let d1 := data.getD 1 0
    let d2 := data.getD 2 0
    let d3 := data.getD 3 0
    let ns : Nat := (d0 <<< 22) + (d1 <<< 14) + (d2 <<< 6) + (d3 >>> 2)
    let sec : Nat := (d3 &&& 3) * 4294967296 + beNat (data.drop 4)
    .ok (.vDate (jsTruncDiv ((sec : Int) * 1000000000 + (ns : Int)) 1000000))
  else if data.length = 12 then
    let ns : Nat := beNat (data.take 4)
    let sec : Int := intBE (data.drop 4)
    .ok (.vDate (jsTruncDiv (sec * 1000000000 + (ns : Int)) 1000000))
  else .error .invalidExtLength

/-- `readExt` with a known payload size: one type byte, then the payload;
type 255 is reinterpreted as a timestamp, any other type yields the plain
`{type: type, data: data}` object the source builds. -/
def readExtC (size : Nat) (bs : List Nat) : Except Err (JsVal × List Nat) := do
  let (t, r) ← readUIntN 1 bs
  let (chunk, r') ← takeBytes size r
  if t = 255 then (readExtDate chunk).map fun v => (v, r')
  else .ok (.vMap [(su "type", .vInt t), (su "data", .vBin chunk)], r')

/-- Read `n` consecutive values with the element reader `rd`. -/
def readManyF (rd : List Nat → Except Err (JsVal × List Nat)) :
    Nat → List Nat → Except Err (List JsVal × List Nat)
  | 0, bs => .ok ([], bs)
  | n + 1, bs => do
    let (v, r) ← rd bs
    let (vs, r') ← readManyF rd n r
    .ok (v :: vs, r')

/-- `readArray` with a known element count. -/
def readArrC (rd : List Nat → Except Err (JsVal × List Nat)) (n : Nat)
    (bs : List Nat) : Except Err (JsVal × List Nat) :=
  (readManyF rd n bs).map fun p => (.vArr p.1, p.2)

/-- `readMap` with a known entry count: the source's loop reads `2 * n`
values (key, value, key, value, ...) and stores them into an object. -/
def readMapC (rd : List Nat → Except Err (JsVal × List Nat)) (n : Nat)
    (bs : List Nat) : Except Err (JsVal × List Nat) :=
  (readManyF rd (2 * n) bs).map fun p => (.vMap (buildMap [] p.1), p.2)

/-- uint8/16/32/64 read producing a value. -/
def readUIntV (k : Nat) (bs : List Nat) : Except Err (JsVal × List Nat) :=
  (readUIntN k bs).map fun p => (.vInt p.1, p.2)

/-- int8/16/32/64 read producing a value. -/
def readIntV (k : Nat) (bs : List Nat) : Except Err (JsVal × List Nat) :=
  (readIntN k bs).map fun p => (.vInt p.1, p.2)

/-- float32 read: 4 bytes, widened bit-exactly to the float64 image. -/
def readF32 (bs : List Nat) : Except Err (JsVal × List Nat) :=
  (takeBytes 4 bs).map fun p => (.vFloat (f32to64 p.1), p.2)

/-- float64 read: 8 big-endian bytes taken as the value's image. -/
def readF64 (bs : List Nat) : Except Err (JsVal × List Nat) :=
  (takeBytes 8 bs).map fun p => (.vFloat p.1, p.2)

/-- bin8/16/32: a length prefix of `lenSize` bytes, then the payload. -/
def readLenBin (lenSize : Nat) (bs : List Nat) : Except Err (JsVal × List Nat) := do
  let (n, r) ← readUIntN lenSize bs
  readBinN n r

/-- str8/16/32: a length prefix of `lenSize` bytes, then the payload. -/
def readLenStr (lenSize : Nat) (bs : List Nat) : Except Err (JsVal × List Nat) := do
  let (n, r) ← readUIntN lenSize bs
  readStrN n r

/-- ext8/16/32: a length prefix, then type byte and payload. -/
def readLenExt (lenSize : Nat) (bs : List Nat) : Except Err (JsVal × List Nat) := do
  let (n, r) ← readUIntN lenSize bs
  readExtC n r

/-- array16/32. -/
def readLenArr (rd : List Nat → Except Err (JsVal × List Nat)) (lenSize : Nat)
    (bs : List Nat) : Except Err (JsVal × List Nat) := do
  let (n, r) ← readUIntN lenSize bs
  readArrC rd n r

/-- map16/32. -/
def readLenMap (rd : List Nat → Except Err (JsVal × List Nat)) (lenSize : Nat)
    (bs : List Nat) : Except Err (JsVal × List Nat) := do
  let (n, r) ← readUIntN lenSize bs
  readMapC rd n r

/-- Embedding of the source's `read`: one tag byte, then the dispatch
table.  `fuel` decreases on each nesting level; reading a composite's
elements keeps the current level's fuel.  A byte outside 0..255 (the
source's defensive final throw for non-byte arrays) reports
`invalidByteValue`. -/
def readF : Nat → List Nat → Except Err (JsVal × List Nat)
  | 0, _ => .error .outOfFuel
  | _ + 1, [] => .error .truncated
  | fuel + 1, b :: rest =>
    if b ≤ 0x7f then .ok (.vInt b, rest)
    else if b ≤ 0x8f then readMapC (fun s => readF fuel s) (b - 0x80) rest
    else if b ≤ 0x9f then readArrC (fun s => readF fuel s) (b - 0x90) rest
    else if b ≤ 0xbf then readStrN (b - 0xa0) rest
    else if b = 0xc0 then .ok (.vNull, rest)
    else if b = 0xc1 then .error .invalidByteCode
    else if b = 0xc2 then .ok (.vBool false, rest)
    else if b = 0xc3 then .ok (.vBool true, rest)
    else if b = 0xc4 then readLenBin 1 rest
    else if b = 0xc5 then readLenBin 2 rest
    else if b = 0xc6 then readLenBin 4 rest
    else if b = 0xc7 then readLenExt 1 rest
    else if b = 0xc8 then readLenExt 2 rest
    else if b = 0xc9 then readLenExt 4 rest
    else if b = 0xca then readF32 rest
    else if b = 0xcb then readF64 rest
    else if b = 0xcc then readUIntV 1 rest
    else if b = 0xcd then readUIntV 2 rest
    else if b = 0xce then readUIntV 4 rest
    else if b = 0xcf then readUIntV 8 rest
    else if b = 0xd0 then readIntV 1 rest
    else if b = 0xd1 then readIntV 2 rest
    else if b = 0xd2 then readIntV 4 rest
    else if b = 0xd3 then readIntV 8 rest
    else if b = 0xd4 then readExtC 1 rest
    else if b = 0xd5 then readExtC 2 rest
    else if b = 0xd6 then readExtC 4 rest
    else if b = 0xd7 then readExtC 8 rest
    else if b = 0xd8 then readExtC 16 rest
    else if b = 0xd9 then readLenStr 1 rest
    else if b = 0xda then readLenStr 2 rest
    else if b = 0xdb then readLenStr 4 rest
    else if b = 0xdc then readLenArr (fun s => readF fuel s) 2 rest
    else if b = 0xdd then readLenArr (fun s => readF fuel s) 4 rest
    else if b = 0xde then readLenMap (fun s => readF fuel s) 2 rest
    else if b = 0xdf then readLenMap (fun s => readF fuel s) 4 rest
    else if b ≤ 0xff then .ok (.vInt ((b : Int) - 256), rest)
    else .error .invalidByteValue

/-- Read one value from the front of `bs`.  One unit of fuel per nesting
level; a successfully read value's nesting is bounded by the bytes it
consumes, so `bs.length + 1` always suffices. -/
def read1 (bs : List Nat) : Except Err (JsVal × List Nat) :=
  readF (bs.length + 1) bs

/-- Top-level `deserialize` without the `multiple` option: reject an empty
input, read one value, ignore whatever follows it. -/
def deserialize (bs : List Nat) : Except Err JsVal :=
  if bs.isEmpty then .error .invalidArgument
  else (read1 bs).map fun p => p.1

/-- The `while (pos < array.length)` loop of `multiple` mode. -/
def readAllF : Nat → List Nat → Except Err (List JsVal)
  | 0, _ => .error .outOfFuel
  | fuel + 1, bs =>
    if bs.isEmpty then .ok []
    else do
      let (v, r) ← read1 bs
      let vs ← readAllF fuel r
      .ok (v :: vs)

/-- Top-level `deserialize` with the `multiple` option. -/
def deserializeMultiple (bs : List Nat) : Except Err (List JsVal) :=
  if bs.isEmpty then .error .invalidArgument
  else readAllF (bs.length + 1) bs

example : deserialize [0xc0] = .ok .vNull := rfl
example : deserialize [0x92, 1, 0xa2, 97, 98] = .ok (.vArr [.vInt 1, .vStr [97, 98]]) := rfl
example : deserialize [0xc1, 7, 7] = .error .invalidByteCode := rfl
example : deserialize [0xd3, 0x80, 0, 0, 0, 0, 0, 0, 0] =
  .ok (.vInt (-9223372036854775808)) := rfl
example : deserialize [0xd6, 0xff, 0, 1, 0, 0] = .ok (.vDate 65536000) := rfl
example : deserializeMultiple [0xc3, 0xc2, 5] = .ok [.vBool true, .vBool false, .vInt 5] := rfl

/-! ## Claim theorems -/

/-- Claim C1 (code bug): the claimed `decode(encode(v)) = v` round-trip
fails inside the clamped 64-bit integer range.  For `v = 2^63` (a
supported 64-bit-range integer) the branch of `appendNumber` whose source
comment reads "uint64" emits the int64 tag 0xd3 (source line 113), and
`deserialize` reads the payload back signed, yielding `-2^63`. -/
theorem c1_roundtrip_fails_inside_64bit_range :
    (serialize (.vInt 9223372036854775808) {}).bind deserialize =
      .ok (.vInt (-9223372036854775808)) ∧
    serialize (.vInt 9223372036854775808) {} =
      .ok [0xd3, 0x80, 0, 0, 0, 0, 0, 0, 0] := ⟨rfl, rfl⟩

/-- Claim C2 (code bug): a positive integer in `(0xffffffff,
0xffffffffffffffff]` is NOT encoded with the uint64 tag 0xcf: the source's
branch at lines 107-113, under the comment "uint64", emits the int64 tag
0xd3 followed by the eight big-endian bytes.  Evaluated at the failing
input 0x100000000. -/
theorem c2_uint64_branch_emits_int64_tag :
    serialize (.vInt 4294967296) {} = .ok [0xd3, 0, 0, 0, 1, 0, 0, 0, 0] ∧
    appendNumber 4294967296 = 0xd3 :: toBE 8 4294967296 := ⟨rfl, rfl⟩

/-- Top-level integer serialization reduces to `appendNumber`. -/
theorem serialize_vInt (n : Int) (opts : Options) (h : opts.multiple = false) :
    serialize (.vInt n) opts = .ok (appendNumber n) := by
  rw [serialize_def _ _ h]
  rfl

/-- Claim C3 counterexample: the value `2^64` is above the maximum
unsigned 64-bit integer, yet `serialize` does not emit the claimed clamp
bytes `0xcf ff ff ff ff ff ff ff ff`: the source's comparison
`data <= 0xffffffffffffffff` is a double comparison against `2^64` (the
literal rounds up), so `2^64` still takes the 0xd3 branch, where the
`ToUint32` truncations of `hi = 2^32` and `lo = 0` emit eight zero
bytes. -/
theorem c3_clamp_misses_at_2pow64 :
    serialize (.vInt 18446744073709551616) {} =
      .ok [0xd3, 0, 0, 0, 0, 0, 0, 0, 0] := rfl

/-- Claim C3, amended: an integer-classified value strictly above `2^64`
(the double the uint64-branch literal parses to) is encoded as 0xcf
followed by eight 0xff bytes, a value below the minimum int64 as 0xd3
followed by 0x80 and seven zero bytes, and in neither case does
`serialize` fail; the single representable double `2^64` above the
maximum uint64 instead falls in the preceding branch and is encoded as
0xd3 followed by eight zero bytes. -/
theorem c3_out_of_range_integers_clamped (n : Int) :
    (18446744073709551616 < n →
      serialize (.vInt n) {} =
        .ok [0xcf, 0xff, 0xff, 0xff, 0xff, 0xff, 0xff, 0xff, 0xff]) ∧
    (n < -9223372036854775808 →
      serialize (.vInt n) {} = .ok [0xd3, 0x80, 0, 0, 0, 0, 0, 0, 0]) := by
  constructor <;> intro h
  all_goals rw [serialize_vInt n {} rfl]
  all_goals have h1 : ¬(0 ≤ n ∧ n ≤ 0x7f) := by omega
  all_goals have h2 : ¬(n < 0 ∧ -0x20 ≤ n) := by omega
  all_goals have h3 : ¬(0 < n ∧ n ≤ 0xff) := by omega
  all_goals have h4 : ¬(-0x80 ≤ n ∧ n ≤ 0x7f) := by omega
  all_goals have h5 : ¬(0 < n ∧ n ≤ 0xffff) := by omega
  all_goals have h6 : ¬(-0x8000 ≤ n ∧ n ≤ 0x7fff) := by omega
  all_goals have h7 : ¬(0 < n ∧ n ≤ 0xffffffff) := by omega
  all_goals have h8 : ¬(-0x80000000 ≤ n ∧ n ≤ 0x7fffffff) := by omega
  all_goals have h9 : ¬(0 < n ∧ n ≤ 18446744073709551616) := by omega
  all_goals have h10 : ¬(-0x8000000000000000 ≤ n ∧ n ≤ 9223372036854775808) := by omega
  · have h11 : ¬(n < 0) := by omega
    simp only [appendNumber, h1, h2, h3, h4, h5, h6, h7, h8, h9, h10, h11,
      if_false, false_and, eq_self_iff_true, if_true]
  · have h11 : n < 0 := by omega
    have h2a : ¬(-32 ≤ n) := by omega
    simp only [appendNumber, h1, h2, h3, h4, h5, h6, h7, h8, h9, h10, h11, h2a,
      if_false, if_true, true_and, false_and]

/-- Witness for C3 at `n = ±2^65`. -/
theorem c3_clamped_witness :
    serialize (.vInt 36893488147419103232) {} =
      .ok [0xcf, 0xff, 0xff, 0xff, 0xff, 0xff, 0xff, 0xff, 0xff] ∧
    serialize (.vInt (-36893488147419103232)) {} =
      .ok [0xd3, 0x80, 0, 0, 0, 0, 0, 0, 0] :=
  ⟨(c3_out_of_range_integers_clamped 36893488147419103232).1 (by norm_num),
   (c3_out_of_range_integers_clamped (-36893488147419103232)).2 (by norm_num)⟩

/-- Claim C8: a byte sequence starting with the reserved tag 0xc1 always
fails with the invalid-byte-code error, whatever follows, in both single
and `multiple` decoding modes. -/
theorem c8_reserved_tag_c1_always_fails (rest : List Nat) :
    deserialize (0xc1 :: rest) = .error .invalidByteCode ∧
    deserializeMultiple (0xc1 :: rest) = .error .invalidByteCode := ⟨rfl, rfl⟩

/-- Claim C10: decoded maps have string keys only: an encoded map entry
whose key decodes to an integer (here 5) or to null is stored under the
JavaScript string conversion of that key ("5", "null"). -/
theorem c10_map_keys_are_stringified :
    deserialize [0x81, 0x05, 0xc3] = .ok (.vMap [(su "5", .vBool true)]) ∧
    deserialize [0x81, 0xc0, 0x05] = .ok (.vMap [(su "null", .vInt 5)]) := by
  have h1 : jsToString (.vInt 5) = su "5" := by
    rw [jsToString]
    norm_num [jsSize]
    rfl
  have h2 : jsToString .vNull = su "null" := by
    rw [jsToString]
    norm_num [jsSize]
    rfl
  constructor
  · show Except.ok (JsVal.vMap [(jsToString (.vInt 5), .vBool true)]) = _
    rw [h1]
  · show Except.ok (JsVal.vMap [(jsToString .vNull, .vInt 5)]) = _
    rw [h2]

/-- Claim C5 counterexample: a string consisting of the unpaired low
surrogate 0xDC00 does NOT fail: `encodeUtf8` falls into the generic
3-byte branch and `serialize` emits the fixstr payload, producing bytes
with no error. -/
theorem c5_lone_low_surrogate_produces_bytes :
    encodeUtf8 [0xdc00] = .ok [0xed, 0xb0, 0x80] ∧
    serialize (.vStr [0xdc00]) {} = .ok [0xa3, 0xed, 0xb0, 0x80] := ⟨rfl, rfl⟩

/-- Claim C5, amended: UTF-8 encoding fails with the encoding error for
every string containing an unpaired HIGH surrogate: whenever the string
contains a code unit in 0xD800-0xDBFF that is at the end of the string or
followed by a unit outside 0xDC00-0xDFFF, `encodeUtf8` fails — with no
condition on the preceding units, since a high surrogate is never a valid
pair-second unit, so the left-to-right scan either fails earlier or
reaches it. -/
theorem c5_unpaired_high_surrogate_fails (pre : List Nat) (c : Nat) (post : List Nat)
    (hc : 0xd7ff < c ∧ c < 0xdc00)
    (hpost : ∀ d, post.head? = some d → (d < 0xdc00 ∨ 0xdfff < d)) :
    encodeUtf8 (pre ++ c :: post) = .error .encodingError := by
  have hbase : encodeUtf8 (c :: post) = .error .encodingError := by
    have h1 : ¬(c < 128) := by omega
    have h2 : ¬(c < 2048) := by omega
    unfold encodeUtf8
    cases post with
    | nil => simp [h1, h2, hc]
    | cons d rest2 =>
      have hd := hpost d rfl
      simp [h1, h2, hc, hd]
  suffices H : ∀ (n : Nat) (pre : List Nat), pre.length ≤ n →
      encodeUtf8 (pre ++ c :: post) = .error .encodingError from
    H pre.length pre le_rfl
  intro n
  induction n with
  | zero =>
    intro pre hlen
    have hnil : pre = [] := List.length_eq_zero.mp (Nat.le_zero.mp hlen)
    subst hnil
    simpa using hbase
  | succ n ih =>
    intro pre hlen
    cases pre with
    | nil => simpa using hbase
    | cons u pre₁ =>
      have hrec : encodeUtf8 (pre₁ ++ c :: post) = .error .encodingError := by
        apply ih
        simp at hlen
        omega
      rw [List.cons_append]
      unfold encodeUtf8
      by_cases g1 : u < 128
      · simp [g1, hrec]
      · by_cases g2 : u < 2048
        · simp [g1, g2, hrec]
        · by_cases g3 : 0xd7ff < u ∧ u < 0xdc00
          · simp only [if_neg g1, if_neg g2, if_pos g3]
            cases pre₁ with
            | nil => simp [hc.2]
            | cons u2 pre₂ =>
              have hrec2 : encodeUtf8 (pre₂ ++ c :: post) = .error .encodingError := by
                apply ih
                simp at hlen
                omega
              rw [List.cons_append]
              by_cases g4 : u2 < 0xdc00 ∨ 0xdfff < u2
              · simp [g4]
              · simp [g4, hrec2]
          · simp [g1, g2, g3, hrec]

/-- Witness for C5: a valid surrogate pair followed by a lone high
surrogate fails. -/
theorem c5_unpaired_high_witness :
    encodeUtf8 [0xd83d, 0xde00, 0xd800] = .error .encodingError :=
  c5_unpaired_high_surrogate_fails [0xd83d, 0xde00] 0xd800 [] (by norm_num) (by simp)

/-- Claim C6 counterexample: a CONFIGURED but falsy replacement (the
boolean `false`, or `null`) is not substituted, because the source guards
with the truthiness test `options && options.invalidTypeReplacement`:
serializing an unsupported value then fails with the unsupported-type
error instead of encoding the configured value. -/
theorem c6_falsy_replacement_is_ignored :
    serialize .vOther {invalidTypeReplacement := some (.val (.vBool false))} =
      .error .unsupportedType ∧
    serialize .vOther {invalidTypeReplacement := some (.val .vNull)} =
      .error .unsupportedType := ⟨rfl, rfl⟩

/-- Claim C6, amended: for a configured TRUTHY replacement, `serialize`
substitutes the configured value (or the configured function's result on
the offending value) and dispatches on it exactly once more, with the
replacement flag set; a dispatch with the flag set fails on an
unsupported value instead of replacing again; and with no replacement
configured the dispatch fails directly. -/
theorem c6_replacement_dispatches_once (fuel : Nat) (opts : Options) (r : JsVal)
    (f : JsVal → JsVal) :
    (opts.invalidTypeReplacement = some (.val r) → jsTruthy r = true →
      appendF (fuel + 1) .vOther false opts = appendF fuel r true opts) ∧
    (opts.invalidTypeReplacement = some (.fn f) →
      appendF (fuel + 1) .vOther false opts = appendF fuel (f .vOther) true opts) ∧
    (appendF (fuel + 1) .vOther true opts = .error .unsupportedType) ∧
    (opts.invalidTypeReplacement = none →
      appendF (fuel + 1) .vOther false opts = .error .unsupportedType) := by
  refine ⟨fun h ht => ?_, fun h => ?_, rfl, fun h => ?_⟩
  · simp only [appendF, replTruthy, h, ht]
    norm_num
  · simp only [appendF, replTruthy, h]
    norm_num
  · simp only [appendF, replTruthy, h]
    norm_num

/-- Witness for C6: the value replacement `true` is encoded through one
extra dispatch, and an unsupported value under the replacement flag
fails. -/
theorem c6_replacement_witness :
    appendF 2 .vOther false {invalidTypeReplacement := some (.val (.vBool true))} =
      appendF 1 (.vBool true) true {invalidTypeReplacement := some (.val (.vBool true))} ∧
    appendF 2 .vOther true {invalidTypeReplacement := some (.val (.vBool true))} =
      .error .unsupportedType :=
  ⟨(c6_replacement_dispatches_once 1 _ (.vBool true) (fun v => v)).1 rfl rfl,
   (c6_replacement_dispatches_once 1 _ (.vBool true) (fun v => v)).2.2.1⟩

/-- Entries whose value is `undefined` contribute no bytes: the encoding
loop over the raw entry list equals the loop over the list with the
absent entries removed. -/
theorem appendEntriesF_filter (enc : JsVal → Except Err (List Nat))
    (entries : List (List Nat × JsVal)) :
    appendEntriesF enc entries =
      appendEntriesF enc (entries.filter fun e => !isUndef e.2) := by
  induction entries with
  | nil => rfl
  | cons e rest ih =>
    obtain ⟨k, v⟩ := e
    by_cases h : isUndef v
    · simp [appendEntriesF, h, List.filter_cons, ih]
    · simp [appendEntriesF, h, List.filter_cons, ih]

/-- Claim C7: map entries with the absent (`undefined`) value are skipped:
the encoding of a map equals the encoding of the map restricted to its
present entries, and the entry count written in the map header is exactly
the number of present entries. -/
theorem c7_absent_entries_skipped (fuel : Nat) (entries : List (List Nat × JsVal))
    (isRepl : Bool) (opts : Options) :
    appendF fuel (.vMap entries) isRepl opts =
      appendF fuel (.vMap (entries.filter fun e => !isUndef e.2)) isRepl opts ∧
    (entries.countP fun e => !isUndef e.2) =
      (entries.filter fun e => !isUndef e.2).length := by
  constructor
  · cases fuel with
    | zero => rfl
    | succ fuel =>
      simp only [appendF]
      rw [appendEntriesF_filter]
      have hc : ((entries.filter fun e => !isUndef e.2).countP fun e => !isUndef e.2) =
          (entries.filter fun e => !isUndef e.2).length := by
        rw [List.countP_eq_length]
        intro a ha
        exact (List.mem_filter.mp ha).2
      rw [List.countP_eq_length_filter, hc]
  · exact List.countP_eq_length_filter _ _

/-! ## Reader stability lemmas: appending bytes after a complete value, or
raising the fuel, does not change a successful read. -/

theorem takeBytes_append (k : Nat) (bs extra c r : List Nat)
    (h : takeBytes k bs = .ok (c, r)) :
    takeBytes k (bs ++ extra) = .ok (c, r ++ extra) := by
  unfold takeBytes at h ⊢
  by_cases hk : k ≤ bs.length
  · rw [if_pos hk] at h
    have hk2 : k ≤ (bs ++ extra).length := by
      rw [List.length_append]; omega
    rw [if_pos hk2, List.take_append_of_le_length hk, List.drop_append_of_le_length hk]
    cases h
    rfl
  · rw [if_neg hk] at h
    simp at h

theorem readUIntN_append (k : Nat) (bs extra : List Nat) (n : Nat) (r : List Nat)
    (h : readUIntN k bs = .ok (n, r)) :
    readUIntN k (bs ++ extra) = .ok (n, r ++ extra) := by
  unfold readUIntN at h ⊢
  cases htb : takeBytes k bs with
  | error e => rw [htb] at h; simp [Except.map] at h
  | ok p =>
    obtain ⟨c, r0⟩ := p
    rw [htb] at h
    simp only [Except.map] at h
    cases h
    rw [takeBytes_append _ _ _ _ _ htb]
    rfl

theorem readIntN_append (k : Nat) (bs extra : List Nat) (n : Int) (r : List Nat)
    (h : readIntN k bs = .ok (n, r)) :
    readIntN k (bs ++ extra) = .ok (n, r ++ extra) := by
  unfold readIntN at h ⊢
  cases htb : takeBytes k bs with
  | error e => rw [htb] at h; simp [Except.map] at h
  | ok p =>
    obtain ⟨c, r0⟩ := p
    rw [htb] at h
    simp only [Except.map] at h
    cases h
    rw [takeBytes_append _ _ _ _ _ htb]
    rfl

theorem readBinN_append (k : Nat) (bs extra : List Nat) (v : JsVal) (r : List Nat)
    (h : readBinN k bs = .ok (v, r)) :
    readBinN k (bs ++ extra) = .ok (v, r ++ extra) := by
  unfold readBinN at h ⊢
  cases htb : takeBytes k bs with
  | error e => rw [htb] at h; simp [Except.map] at h
  | ok p =>
    obtain ⟨c, r0⟩ := p
    rw [htb] at h
    simp only [Except.map] at h
    cases h
    rw [takeBytes_append _ _ _ _ _ htb]
    rfl

theorem readStrN_append (k : Nat) (bs extra : List Nat) (v : JsVal) (r : List Nat)
    (h : readStrN k bs = .ok (v, r)) :
    readStrN k (bs ++ extra) = .ok (v, r ++ extra) := by
  unfold readStrN at h ⊢
  cases htb : takeBytes k bs with
  | error e => rw [htb] at h; simp [Bind.bind, Except.bind] at h
  | ok p =>
    obtain ⟨c, r0⟩ := p
    rw [htb] at h
    rw [takeBytes_append _ _ _ _ _ htb]
    simp only [Bind.bind, Except.bind] at h ⊢
    cases hdu : decodeUtf8 c with
    | error e => rw [hdu] at h; simp at h
    | ok us =>
      rw [hdu] at h
      simp only [Bind.bind, Except.bind] at h
      cases h
      rfl

theorem readF32_append (bs extra : List Nat) (v : JsVal) (r : List Nat)
    (h : readF32 bs = .ok (v, r)) :
    readF32 (bs ++ extra) = .ok (v, r ++ extra) := by
  unfold readF32 at h ⊢
  cases htb : takeBytes 4 bs with
  | error e => rw [htb] at h; simp [Except.map] at h
  | ok p =>
    obtain ⟨c, r0⟩ := p
    rw [htb] at h
    simp only [Except.map] at h
    cases h
    rw [takeBytes_append _ _ _ _ _ htb]
    rfl

theorem readF64_append (bs extra : List Nat) (v : JsVal) (r : List Nat)
    (h : readF64 bs = .ok (v, r)) :
    readF64 (bs ++ extra) = .ok (v, r ++ extra) := by
  unfold readF64 at h ⊢
  cases htb : takeBytes 8 bs with
  | error e => rw [htb] at h; simp [Except.map] at h
  | ok p =>
    obtain ⟨c, r0⟩ := p
    rw [htb] at h
    simp only [Except.map] at h
    cases h
    rw [takeBytes_append _ _ _ _ _ htb]
    rfl

theorem readUIntV_append (k : Nat) (bs extra : List Nat) (v : JsVal) (r : List Nat)
    (h : readUIntV k bs = .ok (v, r)) :
    readUIntV k (bs ++ extra) = .ok (v, r ++ extra) := by
  unfold readUIntV at h ⊢
  cases hu : readUIntN k bs with
  | error e => rw [hu] at h; simp [Except.map] at h
  | ok p =>
    obtain ⟨n, r0⟩ := p
    rw [hu] at h
    simp only [Except.map] at h
    cases h
    rw [readUIntN_append _ _ _ _ _ hu]
    rfl

theorem readIntV_append (k : Nat) (bs extra : List Nat) (v : JsVal) (r : List Nat)
    (h : readIntV k bs = .ok (v, r)) :
    readIntV k (bs ++ extra) = .ok (v, r ++ extra) := by
  unfold readIntV at h ⊢
  cases hu : readIntN k bs with
  | error e => rw [hu] at h; simp [Except.map] at h
  | ok p =>
    obtain ⟨n, r0⟩ := p
    rw [hu] at h
    simp only [Except.map] at h
    cases h
    rw [readIntN_append _ _ _ _ _ hu]
    rfl

theorem readExtC_append (size : Nat) (bs extra : List Nat) (v : JsVal) (r : List Nat)
    (h : readExtC size bs = .ok (v, r)) :
    readExtC size (bs ++ extra) = .ok (v, r ++ extra) := by
  unfold readExtC at h ⊢
  cases hu : readUIntN 1 bs with
  | error e => rw [hu] at h; simp [Bind.bind, Except.bind] at h
  | ok p =>
    obtain ⟨t, r1⟩ := p
    rw [hu] at h
    rw [readUIntN_append _ _ _ _ _ hu]
    simp only [Bind.bind, Except.bind] at h ⊢
    cases htb : takeBytes size r1 with
    | error e => rw [htb] at h; simp [Bind.bind, Except.bind] at h
    | ok q =>
      obtain ⟨chunk, r2⟩ := q
      rw [htb] at h
      rw [takeBytes_append _ _ _ _ _ htb]
      simp only [Bind.bind, Except.bind] at h ⊢
      by_cases ht : t = 255
      · rw [if_pos ht] at h ⊢
        cases hed : readExtDate chunk with
        | error e => rw [hed] at h; simp [Except.map] at h
        | ok w =>
          rw [hed] at h
          simp only [Except.map] at h
          cases h
          rfl
      · rw [if_neg ht] at h ⊢
        cases h
        rfl

theorem readManyF_ext (rd rd' : List Nat → Except Err (JsVal × List Nat))
    (extra : List Nat)
    (hrd : ∀ bs v r, rd bs = .ok (v, r) → rd' (bs ++ extra) = .ok (v, r ++ extra)) :
    ∀ (n : Nat) (bs : List Nat) (vs : List JsVal) (r : List Nat),
      readManyF rd n bs = .ok (vs, r) →
      readManyF rd' n (bs ++ extra) = .ok (vs, r ++ extra) := by
  intro n
  induction n with
  | zero =>
    intro bs vs r h
    unfold readManyF at h ⊢
    cases h
    rfl
  | succ n ih =>
    intro bs vs r h
    unfold readManyF at h ⊢
    cases h1 : rd bs with
    | error e => rw [h1] at h; simp [Bind.bind, Except.bind] at h
    | ok p =>
      obtain ⟨v, r1⟩ := p
      rw [h1] at h
      rw [hrd _ _ _ h1]
      simp only [Bind.bind, Except.bind] at h ⊢
      cases h2 : readManyF rd n r1 with
      | error e => rw [h2] at h; simp at h
      | ok q =>
        obtain ⟨vs0, r'⟩ := q
        rw [h2] at h
        rw [ih _ _ _ h2]
        simp only [Bind.bind, Except.bind] at h ⊢
        cases h
        rfl

theorem readArrC_ext (rd rd' : List Nat → Except Err (JsVal × List Nat))
    (extra : List Nat)
    (hrd : ∀ bs v r, rd bs = .ok (v, r) → rd' (bs ++ extra) = .ok (v, r ++ extra))
    (n : Nat) (bs : List Nat) (v : JsVal) (r : List Nat)
    (h : readArrC rd n bs = .ok (v, r)) :
    readArrC rd' n (bs ++ extra) = .ok (v, r ++ extra) := by
  unfold readArrC at h ⊢
  cases h1 : readManyF rd n bs with
  | error e => rw [h1] at h; simp [Except.map] at h
  | ok p =>
    obtain ⟨vs, r0⟩ := p
    rw [h1] at h
    simp only [Except.map] at h
    cases h
    rw [readManyF_ext rd rd' extra hrd _ _ _ _ h1]
    rfl

theorem readMapC_ext (rd rd' : List Nat → Except Err (JsVal × List Nat))
    (extra : List Nat)
    (hrd : ∀ bs v r, rd bs = .ok (v, r) → rd' (bs ++ extra) = .ok (v, r ++ extra))
    (n : Nat) (bs : List Nat) (v : JsVal) (r : List Nat)
    (h : readMapC rd n bs = .ok (v, r)) :
    readMapC rd' n (bs ++ extra) = .ok (v, r ++ extra) := by
  unfold readMapC at h ⊢
  cases h1 : readManyF rd (2 * n) bs with
  | error e => rw [h1] at h; simp [Except.map] at h
  | ok p =>
    obtain ⟨vs, r0⟩ := p
    rw [h1] at h
    simp only [Except.map] at h
    cases h
    rw [readManyF_ext rd rd' extra hrd _ _ _ _ h1]
    rfl

theorem readLenBin_append (lenSize : Nat) (bs extra : List Nat) (v : JsVal)
    (r : List Nat) (h : readLenBin lenSize bs = .ok (v, r)) :
    readLenBin lenSize (bs ++ extra) = .ok (v, r ++ extra) := by
  unfold readLenBin at h ⊢
  cases h1 : readUIntN lenSize bs with
  | error e => rw [h1] at h; simp [Bind.bind, Except.bind] at h
  | ok p =>
    obtain ⟨n, r1⟩ := p
    rw [h1] at h
    rw [readUIntN_append _ _ _ _ _ h1]
    simp only [Bind.bind, Except.bind] at h ⊢
    exact readBinN_append _ _ _ _ _ h

theorem readLenStr_append (lenSize : Nat) (bs extra : List Nat) (v : JsVal)
    (r : List Nat) (h : readLenStr lenSize bs = .ok (v, r)) :
    readLenStr lenSize (bs ++ extra) = .ok (v, r ++ extra) := by
  unfold readLenStr at h ⊢
  cases h1 : readUIntN lenSize bs with
  | error e => rw [h1] at h; simp [Bind.bind, Except.bind] at h
  | ok p =>
    obtain ⟨n, r1⟩ := p
    rw [h1] at h
    rw [readUIntN_append _ _ _ _ _ h1]
    simp only [Bind.bind, Except.bind] at h ⊢
    exact readStrN_append _ _ _ _ _ h

theorem readLenExt_append (lenSize : Nat) (bs extra : List Nat) (v : JsVal)
    (r : List Nat) (h : readLenExt lenSize bs = .ok (v, r)) :
    readLenExt lenSize (bs ++ extra) = .ok (v, r ++ extra) := by
  unfold readLenExt at h ⊢
  cases h1 : readUIntN lenSize bs with
  | error e => rw [h1] at h; simp [Bind.bind, Except.bind] at h
  | ok p =>
    obtain ⟨n, r1⟩ := p
    rw [h1] at h
    rw [readUIntN_append _ _ _ _ _ h1]
    simp only [Bind.bind, Except.bind] at h ⊢
    exact readExtC_append _ _ _ _ _ h

theorem readLenArr_ext (rd rd' : List Nat → Except Err (JsVal × List Nat))
    (extra : List Nat)
    (hrd : ∀ bs v r, rd bs = .ok (v, r) → rd' (bs ++ extra) = .ok (v, r ++ extra))
    (lenSize : Nat) (bs : List Nat) (v : JsVal) (r : List Nat)
    (h : readLenArr rd lenSize bs = .ok (v, r)) :
    readLenArr rd' lenSize (bs ++ extra) = .ok (v, r ++ extra) := by
  unfold readLenArr at h ⊢
  cases h1 : readUIntN lenSize bs with
  | error e => rw [h1] at h; simp [Bind.bind, Except.bind] at h
  | ok p =>
    obtain ⟨n, r1⟩ := p
    rw [h1] at h
    rw [readUIntN_append _ _ _ _ _ h1]
    simp only [Bind.bind, Except.bind] at h ⊢
    exact readArrC_ext rd rd' extra hrd _ _ _ _ h

theorem readLenMap_ext (rd rd' : List Nat → Except Err (JsVal × List Nat))
    (extra : List Nat)
    (hrd : ∀ bs v r, rd bs = .ok (v, r) → rd' (bs ++ extra) = .ok (v, r ++ extra))
    (lenSize : Nat) (bs : List Nat) (v : JsVal) (r : List Nat)
    (h : readLenMap rd lenSize bs = .ok (v, r)) :
    readLenMap rd' lenSize (bs ++ extra) = .ok (v, r ++ extra) := by
  unfold readLenMap at h ⊢
  cases h1 : readUIntN lenSize bs with
  | error e => rw [h1] at h; simp [Bind.bind, Except.bind] at h
  | ok p =>
    obtain ⟨n, r1⟩ := p
    rw [h1] at h
    rw [readUIntN_append _ _ _ _ _ h1]
    simp only [Bind.bind, Except.bind] at h ⊢
    exact readMapC_ext rd rd' extra hrd _ _ _ _ h


/-- Combined reader stability: a successful read at fuel `f` also succeeds
at any fuel `g ≥ f` and with any extra bytes appended after the input,
returning the same value with the unread suffix carried through. -/
theorem readF_ext : ∀ (f : Nat) (bs : List Nat) (v : JsVal) (r extra : List Nat) (g : Nat),
    f ≤ g → readF f bs = .ok (v, r) → readF g (bs ++ extra) = .ok (v, r ++ extra) := by
  intro f
  induction f with
  | zero => intro bs v r extra g hg h; simp [readF] at h
  | succ f ih =>
    intro bs v r extra g hg h
    obtain ⟨g', rfl⟩ : ∃ g', g = g' + 1 := ⟨g - 1, by omega⟩
    have hf : f ≤ g' := by omega
    have ihx : ∀ bs v r, readF f bs = .ok (v, r) →
        readF g' (bs ++ extra) = .ok (v, r ++ extra) :=
      fun bs v r hh => ih bs v r extra g' hf hh
    cases bs with
    | nil => simp [readF] at h
    | cons b rest =>
      rw [List.cons_append]
      unfold readF at h ⊢
      by_cases hb0 : b ≤ 127
      · simp only [if_pos hb0] at h ⊢
        cases h
        rfl
      · simp only [if_neg hb0] at h ⊢
        by_cases hb1 : b ≤ 143
        · simp only [if_pos hb1] at h ⊢
          exact readMapC_ext _ _ extra ihx _ _ _ _ h
        · simp only [if_neg hb1] at h ⊢
          by_cases hb2 : b ≤ 159
          · simp only [if_pos hb2] at h ⊢
            exact readArrC_ext _ _ extra ihx _ _ _ _ h
          · simp only [if_neg hb2] at h ⊢
            by_cases hb3 : b ≤ 191
            · simp only [if_pos hb3] at h ⊢
              exact readStrN_append _ _ _ _ _ h
            · simp only [if_neg hb3] at h ⊢
              by_cases hb4 : b = 192
              · simp only [if_pos hb4] at h ⊢
                cases h
                rfl
              · simp only [if_neg hb4] at h ⊢
                by_cases hb5 : b = 193
                · simp only [if_pos hb5] at h ⊢
                  simp at h
                · simp only [if_neg hb5] at h ⊢
                  by_cases hb6 : b = 194
                  · simp only [if_pos hb6] at h ⊢
                    cases h
                    rfl
                  · simp only [if_neg hb6] at h ⊢
                    by_cases hb7 : b = 195
                    · simp only [if_pos hb7] at h ⊢
                      cases h
                      rfl
                    · simp only [if_neg hb7] at h ⊢
                      by_cases hb8 : b = 196
                      · simp only [if_pos hb8] at h ⊢
                        exact readLenBin_append _ _ _ _ _ h
                      · simp only [if_neg hb8] at h ⊢
                        by_cases hb9 : b = 197
                        · simp only [if_pos hb9] at h ⊢
                          exact readLenBin_append _ _ _ _ _ h
                        · simp only [if_neg hb9] at h ⊢
                          by_cases hb10 : b = 198
                          · simp only [if_pos hb10] at h ⊢
                            exact readLenBin_append _ _ _ _ _ h
                          · simp only [if_neg hb10] at h ⊢
                            by_cases hb11 : b = 199
                            · simp only [if_pos hb11] at h ⊢
                              exact readLenExt_append _ _ _ _ _ h
                            · simp only [if_neg hb11] at h ⊢
                              by_cases hb12 : b = 200
                              · simp only [if_pos hb12] at h ⊢
                                exact readLenExt_append _ _ _ _ _ h
                              · simp only [if_neg hb12] at h ⊢
                                by_cases hb13 : b = 201
                                · simp only [if_pos hb13] at h ⊢
                                  exact readLenExt_append _ _ _ _ _ h
                                · simp only [if_neg hb13] at h ⊢
                                  by_cases hb14 : b = 202
                                  · simp only [if_pos hb14] at h ⊢
                                    exact readF32_append _ _ _ _ h
                                  · simp only [if_neg hb14] at h ⊢
                                    by_cases hb15 : b = 203
                                    · simp only [if_pos hb15] at h ⊢
                                      exact readF64_append _ _ _ _ h
                                    · simp only [if_neg hb15] at h ⊢
                                      by_cases hb16 : b = 204
                                      · simp only [if_pos hb16] at h ⊢
                                        exact readUIntV_append _ _ _ _ _ h
                                      · simp only [if_neg hb16] at h ⊢
                                        by_cases hb17 : b = 205
                                        · simp only [if_pos hb17] at h ⊢
                                          exact readUIntV_append _ _ _ _ _ h
                                        · simp only [if_neg hb17] at h ⊢
                                          by_cases hb18 : b = 206
                                          · simp only [if_pos hb18] at h ⊢
                                            exact readUIntV_append _ _ _ _ _ h
                                          · simp only [if_neg hb18] at h ⊢
                                            by_cases hb19 : b = 207
                                            · simp only [if_pos hb19] at h ⊢
                                              exact readUIntV_append _ _ _ _ _ h
                                            · simp only [if_neg hb19] at h ⊢
                                              by_cases hb20 : b = 208
                                              · simp only [if_pos hb20] at h ⊢
                                                exact readIntV_append _ _ _ _ _ h
                                              · simp only [if_neg hb20] at h ⊢
                                                by_cases hb21 : b = 209
                                                · simp only [if_pos hb21] at h ⊢
                                                  exact readIntV_append _ _ _ _ _ h
                                                · simp only [if_neg hb21] at h ⊢
                                                  by_cases hb22 : b = 210
                                                  · simp only [if_pos hb22] at h ⊢
                                                    exact readIntV_append _ _ _ _ _ h
                                                  · simp only [if_neg hb22] at h ⊢
                                                    by_cases hb23 : b = 211
                                                    · simp only [if_pos hb23] at h ⊢
                                                      exact readIntV_append _ _ _ _ _ h
                                                    · simp only [if_neg hb23] at h ⊢
                                                      by_cases hb24 : b = 212
                                                      · simp only [if_pos hb24] at h ⊢
                                                        exact readExtC_append _ _ _ _ _ h
                                                      · simp only [if_neg hb24] at h ⊢
                                                        by_cases hb25 : b = 213
                                                        · simp only [if_pos hb25] at h ⊢
                                                          exact readExtC_append _ _ _ _ _ h
                                                        · simp only [if_neg hb25] at h ⊢
                                                          by_cases hb26 : b = 214
                                                          · simp only [if_pos hb26] at h ⊢
                                                            exact readExtC_append _ _ _ _ _ h
                                                          · simp only [if_neg hb26] at h ⊢
                                                            by_cases hb27 : b = 215
                                                            · simp only [if_pos hb27] at h ⊢
                                                              exact readExtC_append _ _ _ _ _ h
                                                            · simp only [if_neg hb27] at h ⊢
                                                              by_cases hb28 : b = 216
                                                              · simp only [if_pos hb28] at h ⊢
                                                                exact readExtC_append _ _ _ _ _ h
                                                              · simp only [if_neg hb28] at h ⊢
                                                                by_cases hb29 : b = 217
                                                                · simp only [if_pos hb29] at h ⊢
                                                                  exact readLenStr_append _ _ _ _ _ h
                                                                · simp only [if_neg hb29] at h ⊢
                                                                  by_cases hb30 : b = 218
                                                                  · simp only [if_pos hb30] at h ⊢
                                                                    exact readLenStr_append _ _ _ _ _ h
                                                                  · simp only [if_neg hb30] at h ⊢
                                                                    by_cases hb31 : b = 219
                                                                    · simp only [if_pos hb31] at h ⊢
                                                                      exact readLenStr_append _ _ _ _ _ h
                                                                    · simp only [if_neg hb31] at h ⊢
                                                                      by_cases hb32 : b = 220
                                                                      · simp only [if_pos hb32] at h ⊢
                                                                        exact readLenArr_ext _ _ extra ihx _ _ _ _ h
                                                                      · simp only [if_neg hb32] at h ⊢
                                                                        by_cases hb33 : b = 221
                                                                        · simp only [if_pos hb33] at h ⊢
                                                                          exact readLenArr_ext _ _ extra ihx _ _ _ _ h
                                                                        · simp only [if_neg hb33] at h ⊢
                                                                          by_cases hb34 : b = 222
                                                                          · simp only [if_pos hb34] at h ⊢
                                                                            exact readLenMap_ext _ _ extra ihx _ _ _ _ h
                                                                          · simp only [if_neg hb34] at h ⊢
                                                                            by_cases hb35 : b = 223
                                                                            · simp only [if_pos hb35] at h ⊢
                                                                              exact readLenMap_ext _ _ extra ihx _ _ _ _ h
                                                                            · simp only [if_neg hb35] at h ⊢
                                                                              by_cases hb36 : b ≤ 255
                                                                              · simp only [if_pos hb36] at h ⊢
                                                                                cases h
                                                                                rfl
                                                                              · simp only [if_neg hb36] at h ⊢
                                                                                simp at h

/-- Claim C9: when the input begins with one complete encoded value (one
`read` consumes the whole prefix `bs`), `deserialize` without the
`multiple` option returns that first value and silently ignores any
trailing bytes: no error is raised for the extra input. -/
theorem c9_trailing_bytes_ignored (bs extra : List Nat) (v : JsVal)
    (h : read1 bs = .ok (v, [])) :
    deserialize (bs ++ extra) = .ok v := by
  have hbs : bs ≠ [] := by
    intro e
    subst e
    simp [read1, readF] at h
  have h2 : readF ((bs ++ extra).length + 1) (bs ++ extra) = .ok (v, [] ++ extra) :=
    readF_ext (bs.length + 1) bs v [] extra ((bs ++ extra).length + 1)
      (by rw [List.length_append]; omega) h
  unfold deserialize read1
  rw [if_neg (by cases bs with | nil => exact absurd rfl hbs | cons x xs => simp)]
  rw [h2]
  rfl

/-- Witness for C9: a one-byte `true` followed by two junk bytes decodes
to `true` with no error. -/
theorem c9_trailing_witness : deserialize [0xc3, 0x07, 0x15] = .ok (.vBool true) :=
  c9_trailing_bytes_ignored [0xc3] [0x07, 0x15] (.vBool true) rfl

/-! ## Big-endian arithmetic lemmas for the timestamp round-trip -/

theorem toBE_length (k n : Nat) : (toBE k n).length = k := by
  induction k generalizing n with
  | zero => rfl
  | succ k ih => simp [toBE, ih]

theorem beNat_fold (l : List Nat) (a : Nat) :
    l.foldl (fun v b => v * 256 + b) a = a * 256 ^ l.length + beNat l := by
  induction l generalizing a with
  | nil => simp [beNat]
  | cons c l ih =>
    have hc : beNat (c :: l) = c * 256 ^ l.length + beNat l := by
      show List.foldl _ (0 * 256 + c) l = _
      rw [ih]
      ring_nf
    simp only [List.foldl_cons, List.length_cons]
    rw [ih (a * 256 + c), hc]
    ring

theorem beNat_cons (c : Nat) (l : List Nat) :
    beNat (c :: l) = c * 256 ^ l.length + beNat l := by
  show List.foldl _ (0 * 256 + c) l = _
  rw [beNat_fold]
  ring_nf

theorem beNat_append_one (l : List Nat) (x : Nat) :
    beNat (l ++ [x]) = beNat l * 256 + x := by
  unfold beNat
  rw [List.foldl_append]
  rfl

theorem beNat_toBE (k n : Nat) : beNat (toBE k n) = n % 256 ^ k := by
  induction k generalizing n with
  | zero => simp [toBE, beNat, Nat.mod_one]
  | succ k ih =>
    show beNat (toBE k (n / 256) ++ [n % 256]) = n % 256 ^ (k + 1)
    rw [beNat_append_one, ih]
    rw [pow_succ', Nat.mod_mul]
    ring

theorem toBE_bytes_lt (k n : Nat) : ∀ x ∈ toBE k n, x < 256 := by
  induction k generalizing n with
  | zero => intro x hx; simp [toBE] at hx
  | succ k ih =>
    intro x hx
    rw [toBE] at hx
    rcases List.mem_append.mp hx with h | h
    · exact ih _ x h
    · simp at h
      omega

theorem beNat_lt (l : List Nat) (h : ∀ x ∈ l, x < 256) : beNat l < 256 ^ l.length := by
  induction l with
  | nil => simp [beNat]
  | cons c l ih =>
    rw [beNat_cons]
    have hc : c < 256 := h c (List.mem_cons_self c l)
    have hl : beNat l < 256 ^ l.length := ih fun x hx => h x (List.mem_cons_of_mem _ hx)
    have : c * 256 ^ l.length ≤ 255 * 256 ^ l.length :=
      Nat.mul_le_mul_right _ (by omega)
    calc c * 256 ^ l.length + beNat l < c * 256 ^ l.length + 256 ^ l.length := by omega
    _ ≤ 255 * 256 ^ l.length + 256 ^ l.length := by omega
    _ = 256 ^ (l.length + 1) := by ring
    _ = 256 ^ (c :: l).length := by simp

theorem intBE_fold (l : List Nat) (a : Int) :
    l.foldl (fun (v : Int) (c : Nat) => v * 256 + (c : Int)) a =
      a * 256 ^ l.length + (beNat l : Int) := by
  induction l generalizing a with
  | nil => simp [beNat]
  | cons c l ih =>
    simp only [List.foldl_cons, List.length_cons]
    rw [ih (a * 256 + (c : Int)), beNat_cons]
    push_cast
    ring

/-- The signed read of a byte list equals its unsigned value, corrected by
`2^(8k)` when the top bit of the first byte is set. -/
theorem intBE_eq (b : Nat) (l : List Nat) (hb : b < 256) :
    intBE (b :: l) =
      (beNat (b :: l) : Int) - (if 128 ≤ b then (256 : Int) ^ (l.length + 1) else 0) := by
  have hdef : intBE (b :: l) = l.foldl (fun (v : Int) (c : Nat) => v * 256 + (c : Int))
      (((b &&& 0x7f : Nat) : Int) - (if 0x80 ≤ b then (0x80 : Int) else 0)) := rfl
  rw [hdef, intBE_fold, beNat_cons]
  have hand : (b &&& 127 : Nat) = b % 128 := Nat.and_pow_two_sub_one_eq_mod b 7
  by_cases h : 128 ≤ b
  · rw [if_pos h, if_pos h, hand]
    have : b % 128 = b - 128 := by omega
    rw [this]
    push_cast [Nat.sub_add_cancel]
    have hb' : (128 : Int) ≤ (b : Int) := by exact_mod_cast h
    have : ((b - 128 : Nat) : Int) = (b : Int) - 128 := by
      push_cast [h]
      ring
    rw [this]
    ring
  · rw [if_neg h, if_neg h, hand]
    have : b % 128 = b := Nat.mod_eq_of_lt (by omega)
    rw [this]
    push_cast
    ring

/-- Reading back the eight big-endian bytes of a signed 64-bit value in
range recovers it. -/
theorem intBE_toBE8 (x : Int) (h1 : -(9223372036854775808 : Int) ≤ x)
    (h2 : x < 9223372036854775808) :
    intBE (toBE 8 ((x % 18446744073709551616).toNat)) = x := by
  set N : Nat := (x % 18446744073709551616).toNat with hN
  have hNlt : N < 18446744073709551616 := by
    have := Int.emod_lt_of_pos x (by norm_num : (0 : Int) < 18446744073709551616)
    have := Int.emod_nonneg x (by norm_num : (18446744073709551616 : Int) ≠ 0)
    omega
  have hNcast : (N : Int) = x % 18446744073709551616 := by
    have := Int.emod_nonneg x (by norm_num : (18446744073709551616 : Int) ≠ 0)
    omega
  have hlen : (toBE 8 N).length = 8 := toBE_length 8 N
  obtain ⟨b, l, heq⟩ : ∃ b l, toBE 8 N = b :: l := by
    cases hc : toBE 8 N with
    | nil => rw [hc] at hlen; simp at hlen
    | cons b l => exact ⟨b, l, rfl⟩
  have hllen : l.length = 7 := by
    rw [heq] at hlen
    simpa using hlen
  have hb : b < 256 := toBE_bytes_lt 8 N b (heq ▸ List.mem_cons_self b l)
  have hbeq : beNat (b :: l) = N := by
    rw [← heq, beNat_toBE]
    exact Nat.mod_eq_of_lt (by norm_num [hNlt])
  have hlbytes : ∀ x ∈ l, x < 256 := fun y hy =>
    toBE_bytes_lt 8 N y (heq ▸ List.mem_cons_of_mem _ hy)
  have hlval : beNat l < 72057594037927936 := by
    have := beNat_lt l hlbytes
    rw [hllen] at this
    norm_num at this
    exact this
  have hsplit : beNat (b :: l) = b * 72057594037927936 + beNat l := by
    rw [beNat_cons, hllen]
    norm_num
  have hbtop : 128 ≤ b ↔ 9223372036854775808 ≤ N := by
    omega
  rw [heq, intBE_eq b l hb, hbeq, hllen]
  by_cases htop : 128 ≤ b
  · rw [if_pos htop]
    have hge : 9223372036854775808 ≤ N := hbtop.mp htop
    norm_num
    omega
  · rw [if_neg htop]
    have hlt : ¬(9223372036854775808 ≤ N) := fun hh => htop (hbtop.mpr hh)
    norm_num
    omega

/-! ## Timestamp claims -/

theorem serialize_vDate (ms : Int) (opts : Options) (h : opts.multiple = false) :
    serialize (.vDate ms) opts = .ok (appendDate ms) := by
  rw [serialize_def _ _ h]
  rfl

/-- Decoding the 4-byte timestamp extension (tag 0xd6, type 255) yields
the date at `s` whole seconds. -/
theorem deserialize_d6 (s : Nat) (hs : s < 4294967296) :
    deserialize (0xd6 :: 0xff :: toBE 4 s) = .ok (.vDate ((s : Int) * 1000)) := by
  have hb : beNat (toBE 4 s) = s := by
    rw [beNat_toBE]
    exact Nat.mod_eq_of_lt (by norm_num [hs])
  show Except.ok (JsVal.vDate ((beNat (toBE 4 s) : Int) * 1000)) = _
  rw [hb]

/-- Decoding the 12-byte timestamp extension (0xc7, length 12, type 255):
32-bit nanoseconds, then a signed 64-bit second count. -/
theorem deserialize_c7_ts12 (ns S : Nat) (hns : ns < 4294967296) :
    deserialize (0xc7 :: 12 :: 0xff :: (toBE 4 ns ++ toBE 8 S)) =
      .ok (.vDate (jsTruncDiv (intBE (toBE 8 S) * 1000000000 + (ns : Int)) 1000000)) := by
  have hb : beNat (toBE 4 ns) = ns := by
    rw [beNat_toBE]
    exact Nat.mod_eq_of_lt (by norm_num [hns])
  show Except.ok (JsVal.vDate (jsTruncDiv
      (intBE (toBE 8 S) * 1000000000 + (beNat (toBE 4 ns) : Int)) 1000000)) = _
  rw [hb]

theorem jsTruncDiv_mul (m : Int) : jsTruncDiv (m * 1000000) 1000000 = m := by
  unfold jsTruncDiv
  split_ifs with h
  · omega
  · omega

theorem dateSec64_dvd_neg (ms : Int) (hdvd : (1000 : Int) ∣ ms) (hneg : ms < 0) :
    dateSec64 ms = ms / 1000 := by
  unfold dateSec64
  rw [if_neg (by omega)]
  omega

theorem dateSec64_small_neg (ms : Int) (h1 : -1000 < ms) (hneg : ms < 0) :
    dateSec64 ms = -1 := by
  unfold dateSec64
  rw [if_neg (by omega)]
  omega

/-- Claim C4, amended.  A timestamp with zero fractional-second part and a
second count inside unsigned 32 bits round-trips via the 4-byte extension
form (tag 0xd6, type 255).  A timestamp with negative (pre-epoch) seconds
is always encoded via the 12-byte form (0xc7, length 12, type 255,
nanoseconds then signed 64-bit seconds) — bounds are the JavaScript
`Date` range — but the round-trip returns an equal timestamp only when
the milliseconds are a multiple of 1000 or lie within the first second
before the epoch; other fractional pre-epoch timestamps decode to a
different instant (see the counterexample). -/
theorem c4_timestamp_forms (ms : Int) :
    (ms % 1000 = 0 → 0 ≤ ms → ms < 4294967296000 →
      serialize (.vDate ms) {} = .ok (0xd6 :: 0xff :: toBE 4 (ms / 1000).toNat) ∧
      (serialize (.vDate ms) {}).bind deserialize = .ok (.vDate ms)) ∧
    (ms < 0 → -8640000000000000 ≤ ms →
      serialize (.vDate ms) {} =
        .ok (0xc7 :: 12 :: 0xff :: (toBE 4 ((ms % 1000).toNat * 1000000) ++
          toBE 8 ((dateSec64 ms) % 18446744073709551616).toNat)) ∧
      ((1000 ∣ ms ∨ -1000 < ms) →
        (serialize (.vDate ms) {}).bind deserialize = .ok (.vDate ms))) := by
  constructor
  · intro hmod h0 hlt
    have hdvd : (1000 : Int) ∣ ms := Int.dvd_of_emod_eq_zero hmod
    have henc : serialize (.vDate ms) {} = .ok (0xd6 :: 0xff :: toBE 4 (ms / 1000).toNat) := by
      rw [serialize_vDate ms {} rfl]
      have hcond : ((ms % 1000).toNat = 0 ∧ 0 ≤ ms ∧ ms < 1000 * 4294967296) := by
        refine ⟨by omega, h0, by omega⟩
      simp only [appendDate]
      rw [if_pos hcond]
    refine ⟨henc, ?_⟩
    rw [henc]
    show deserialize (0xd6 :: 0xff :: toBE 4 (ms / 1000).toNat) = _
    have hslt : (ms / 1000).toNat < 4294967296 := by omega
    rw [deserialize_d6 _ hslt]
    have : (((ms / 1000).toNat : Int)) * 1000 = ms := by omega
    rw [this]
  · intro hneg hbound
    have henc : serialize (.vDate ms) {} =
        .ok (0xc7 :: 12 :: 0xff :: (toBE 4 ((ms % 1000).toNat * 1000000) ++
          toBE 8 ((dateSec64 ms) % 18446744073709551616).toNat)) := by
      rw [serialize_vDate ms {} rfl]
      have hc1 : ¬((ms % 1000).toNat = 0 ∧ 0 ≤ ms ∧ ms < 1000 * 4294967296) := by omega
      have hc2 : ¬(0 ≤ ms ∧ ms < 1000 * 17179869184) := by omega
      simp only [appendDate]
      rw [if_neg hc1, if_neg hc2]
      simp [List.cons_append]
    refine ⟨henc, ?_⟩
    intro hcase
    rw [henc]
    show deserialize (0xc7 :: 12 :: 0xff :: (toBE 4 ((ms % 1000).toNat * 1000000) ++
        toBE 8 ((dateSec64 ms) % 18446744073709551616).toNat)) = _
    have hnslt : (ms % 1000).toNat * 1000000 < 4294967296 := by omega
    rw [deserialize_c7_ts12 _ _ hnslt]
    rcases hcase with hdvd | hsmall
    · have hsec : dateSec64 ms = ms / 1000 := dateSec64_dvd_neg ms hdvd hneg
      have hrange1 : -(9223372036854775808 : Int) ≤ dateSec64 ms := by
        rw [hsec]; omega
      have hrange2 : dateSec64 ms < 9223372036854775808 := by
        rw [hsec]; omega
      rw [intBE_toBE8 _ hrange1 hrange2, hsec]
      have hmsz : (ms % 1000).toNat = 0 := by omega
      rw [hmsz]
      have : ms / 1000 * 1000000000 + ((0 * 1000000 : Nat) : Int) = ms * 1000000 := by
        push_cast
        omega
      rw [this, jsTruncDiv_mul]
    · have hsec : dateSec64 ms = -1 := dateSec64_small_neg ms hsmall hneg
      have hrange1 : -(9223372036854775808 : Int) ≤ dateSec64 ms := by
        rw [hsec]; omega
      have hrange2 : dateSec64 ms < 9223372036854775808 := by
        rw [hsec]; omega
      rw [intBE_toBE8 _ hrange1 hrange2, hsec]
      have : (-1 : Int) * 1000000000 + (((ms % 1000).toNat * 1000000 : Nat) : Int) =
          ms * 1000000 := by
        push_cast
        omega
      rw [this, jsTruncDiv_mul]

/-- Witness for C4 at one second after the epoch (4-byte form) and seven
seconds before it (12-byte form). -/
theorem c4_timestamp_witness :
    ((serialize (.vDate 1000) {}).bind deserialize = .ok (.vDate 1000)) ∧
    ((serialize (.vDate (-7000)) {}).bind deserialize = .ok (.vDate (-7000))) :=
  ⟨((c4_timestamp_forms 1000).1 (by decide) (by decide) (by decide)).2,
   ((c4_timestamp_forms (-7000)).2 (by decide) (by decide)).2
     (Or.inl (by decide))⟩

/-- Claim C4 counterexample: the pre-epoch timestamp at -2500 ms (zero
nanoseconds claimed by neither form: seconds -2.5) is encoded via the
12-byte form but decodes to -1500 ms, NOT an equal timestamp: the source's
`appendInt64` mis-encodes a fractional negative second count (it stores
ceil instead of floor of -2.5). -/
theorem c4_preepoch_fraction_misdecodes :
    (serialize (.vDate (-2500)) {}).bind deserialize = .ok (.vDate (-1500)) ∧
    serialize (.vDate (-2500)) {} = .ok [0xc7, 12, 0xff, 0x1d, 0xcd, 0x65, 0x00,
      0xff, 0xff, 0xff, 0xff, 0xff, 0xff, 0xff, 0xfe] := ⟨rfl, rfl⟩
